import Mathlib

/-!
Verification of the `use-context-selector` store library.

The source is shallowly embedded:
* JavaScript runtime values are modelled by `JSVal`, a tree of primitives and
  composites.  Each composite node carries a reference identifier `ref : Nat`
  modelling JavaScript object identity; `Object.is` on composites compares
  these identifiers, on primitives it compares structurally (with
  `Object.is(NaN, NaN) = true`).
* `shallow` (src/utils/shallow.ts) is translated branch by branch in source
  order.
* The store closure of `createStore` (get/set/subscribe and the mutable
  `value`, `listeners`, `$version`) is modelled by the record `StoreState`;
  `setOp`, `subscribeOp`, `unsubscribeOp` are the three operations.  The
  listener `Set` is a list in insertion order, entries identified by a fresh
  `Nat` id (JS object identity of the entry object).  Invoking the queued
  callbacks is modelled by `setOp` returning the queued entries in invocation
  order, since callbacks are opaque side-effecting thunks.
* The `useSyncExternalStore` getSnapshot closure of `useStoreSelector`
  (with its `lastSnapshotRef`/`lastVersionRef` pair) is modelled by
  `readStoreSelector` over a `SnapshotCache`.
* Exception propagation out of caller-supplied selector / equality /
  updater functions is modelled by `Except`-valued variants (`setOpE`,
  `readStoreSelectorE`).
-/

/-- A JavaScript runtime value.  Composites carry a reference id modelling
object identity. -/
inductive JSVal : Type where
  | undefined : JSVal
  | null : JSVal
  | bool (b : Bool) : JSVal
  | num (n : Int) : JSVal
  | nan : JSVal
  | str (s : String) : JSVal
  | arr (ref : Nat) (elems : List JSVal) : JSVal
  | obj (ref : Nat) (fields : List (String × JSVal)) : JSVal
  | jmap (ref : Nat) (entries : List (JSVal × JSVal)) : JSVal
  | jset (ref : Nat) (elems : List JSVal) : JSVal
  | date (ref : Nat) (time : Int) : JSVal
  | regex (ref : Nat) (source : String) : JSVal

namespace JSVal

/-- The reference id of a composite value, `none` for primitives. -/
def refId : JSVal → Option Nat
  | .arr r _ => some r
  | .obj r _ => some r
  | .jmap r _ => some r
  | .jset r _ => some r
  | .date r _ => some r
  | .regex r _ => some r
  | _ => none

/-- A tag distinguishing the constructor kinds. -/
def kindTag : JSVal → Nat
  | .undefined => 0
  | .null => 1
  | .bool _ => 2
  | .num _ => 3
  | .nan => 4
  | .str _ => 5
  | .arr _ _ => 6
  | .obj _ _ => 7
  | .jmap _ _ => 8
  | .jset _ _ => 9
  | .date _ _ => 10
  | .regex _ _ => 11

/-- `true` iff the value is a composite (typeof "object", excluding `null`). -/
def isComposite : JSVal → Bool
  | .arr _ _ => true
  | .obj _ _ => true
  | .jmap _ _ => true
  | .jset _ _ => true
  | .date _ _ => true
  | .regex _ _ => true
  | _ => false

/-- `Object.is`: structural on primitives (`NaN` equal to itself), reference
identity on composites. -/
def objectIs : JSVal → JSVal → Bool
  | .undefined, .undefined => true
  | .null, .null => true
  | .bool x, .bool y => x == y
  | .num x, .num y => x == y
  | .nan, .nan => true
  | .str x, .str y => x == y
  | .arr r _, .arr s _ => r == s
  | .obj r _, .obj s _ => r == s
  | .jmap r _, .jmap s _ => r == s
  | .jset r _, .jset s _ => r == s
  | .date r _, .date s _ => r == s
  | .regex r _, .regex s _ => r == s
  | _, _ => false

/-- JavaScript strict equality `===`: like `objectIs` except `NaN === NaN`
is false.  (`+0`/`-0` are not distinguished in the model.) -/
def jsStrictEq (a b : JSVal) : Bool :=
  match a, b with
  | .nan, _ => false
  | _, .nan => false
  | _, _ => objectIs a b

/-- `a === null || a === undefined`. -/
def isNullish : JSVal → Bool
  | .undefined => true
  | .null => true
  | _ => false

/-- The `typeof` operator (note `typeof null = "object"`). -/
def typeofStr : JSVal → String
  | .undefined => "undefined"
  | .null => "object"
  | .bool _ => "boolean"
  | .num _ => "number"
  | .nan => "number"
  | .str _ => "string"
  | _ => "object"

def isArr : JSVal → Bool
  | .arr _ _ => true
  | _ => false

def isDate : JSVal → Bool
  | .date _ _ => true
  | _ => false

def isRegex : JSVal → Bool
  | .regex _ _ => true
  | _ => false

def isMapV : JSVal → Bool
  | .jmap _ _ => true
  | _ => false

def isSetV : JSVal → Bool
  | .jset _ _ => true
  | _ => false

def arrElems : JSVal → List JSVal
  | .arr _ xs => xs
  | _ => []

def dateTime : JSVal → Int
  | .date _ t => t
  | _ => 0

def regexSource : JSVal → String
  | .regex _ s => s
  | _ => ""

def mapEntries : JSVal → List (JSVal × JSVal)
  | .jmap _ es => es
  | _ => []

def setElems : JSVal → List JSVal
  | .jset _ xs => xs
  | _ => []

/-- The own enumerable string-keyed properties of a value, in property
order: a plain object's fields, an array's indexed elements;
`Map`/`Set`/`Date`/`RegExp` instances have no own enumerable properties. -/
def jsFields : JSVal → List (String × JSVal)
  | .obj _ fs => fs
  | .arr _ xs => xs.enum.map fun p => (toString p.1, p.2)
  | _ => []

/-- `Object.keys`: own enumerable property names. -/
def jsOwnKeys (v : JSVal) : List String :=
  (jsFields v).map (·.1)

/-- `Object.prototype.hasOwnProperty.call(v, k)` for the keys that can arise
from `jsOwnKeys`. -/
def hasOwnProp (v : JSVal) (k : String) : Bool :=
  (jsFields v).any (·.1 == k)

/-- Property access `v[k]` for string key `k` (undefined when absent). -/
def getProp (v : JSVal) (k : String) : JSVal :=
  match (jsFields v).find? (·.1 == k) with
  | some p => p.2
  | none => .undefined

end JSVal

open JSVal

/-- `Map.prototype.has` (key lookup by `Object.is`, `±0` not modelled). -/
def mapHas (es : List (JSVal × JSVal)) (k : JSVal) : Bool :=
  es.any fun p => objectIs k p.1

/-- `Map.prototype.get` (undefined when absent). -/
def mapGet (es : List (JSVal × JSVal)) (k : JSVal) : JSVal :=
  match es.find? (fun p => objectIs k p.1) with
  | some p => p.2
  | none => .undefined

/-- `shallow` from src/utils/shallow.ts, translated branch by branch in
source order. -/
def shallow (a b : JSVal) : Bool :=
  if objectIs a b then true
  else if isNullish a || isNullish b then jsStrictEq a b
  else if !(typeofStr a == typeofStr b) then false
  else if !(typeofStr a == "object") || !(typeofStr b == "object") then false
  else if isArr a && isArr b then
    if !((arrElems a).length == (arrElems b).length) then false
    else ((arrElems a).zip (arrElems b)).all fun p => objectIs p.1 p.2
  else if isArr a || isArr b then false
  else if isDate a && isDate b then dateTime a == dateTime b
  else if isRegex a && isRegex b then regexSource a == regexSource b
  else if isMapV a && isMapV b then
    if !((mapEntries a).length == (mapEntries b).length) then false
    else (mapEntries a).all fun p =>
      mapHas (mapEntries b) p.1 && objectIs p.2 (mapGet (mapEntries b) p.1)
  else if isSetV a && isSetV b then
    if !((setElems a).length == (setElems b).length) then false
    else (setElems a).all fun v => (setElems b).any (objectIs v)
  else
    let keysA := jsOwnKeys a
    let keysB := jsOwnKeys b
    if !(keysA.length == keysB.length) then false
    else keysA.all fun k => hasOwnProp b k && objectIs (getProp a k) (getProp b k)

/-! ## The store (`createStore` in src/unnamed/part_000) -/

/-- A subscription entry: the `{ callback, selector, equalityFn }` object
built by `subscribe`.  Callbacks are opaque thunks, identified by a `Nat`;
an invocation is recorded by returning the entry from `setOp`. -/
structure Entry where
  callback : Nat
  selector : JSVal → JSVal
  equalityFn : JSVal → JSVal → Bool

/-- The mutable closure state of `createStore`: the current `value`, the
`listeners` set (a list in insertion order, each entry tagged with a fresh
`Nat` modelling the entry object's identity), the id supply, the
`$version` counter, and the allocation counter for fresh object refs. -/
structure StoreState where
  value : JSVal
  listeners : List (Nat × Entry)
  nextId : Nat
  version : Nat
  nextRef : Nat

/-- `createStore(initialValue)`: empty listener set, `$version = 1`.
`nr` seeds the reference allocator (the next unused object id). -/
def createStore (initial : JSVal) (nr : Nat) : StoreState :=
  ⟨initial, [], 0, 1, nr⟩

/-- `store.get()`. -/
def getOp (st : StoreState) : JSVal :=
  st.value

/-- `typeof nextState === 'function' ? nextState(value) : nextState`. -/
def resolveUpd (arg : JSVal ⊕ (JSVal → JSVal)) (value : JSVal) : JSVal :=
  match arg with
  | .inl v => v
  | .inr f => f value

/-- Field list of the spread `{...a, ...b}`: keys of `a` keep their position
but take `b`'s value when `b` also names them; keys only in `b` are appended
in `b`'s order. -/
def mergeFields (a b : List (String × JSVal)) : List (String × JSVal) :=
  (a.map fun p =>
    match b.find? (fun q => q.1 == p.1) with
    | some q => (p.1, q.2)
    | none => p)
  ++ b.filter fun q => !(a.any fun p => p.1 == q.1)

/-- `store.set(nextState)`.  Returns the updated store state together with
the queued entries in invocation order (the model of "every queued callback
is invoked").  Mirrors the source: resolve the updater, build
`newState = {...value, ...update}`, filter the listeners through their
equality functions, commit `value = newState` unconditionally, then
`if (updateQueue.length) { store.$version++ && updateQueue.forEach(cb => cb()) }`
— the post-increment yields the pre-update version, so the callbacks run
only when that pre-update version is non-zero (truthy). -/
def setOp (st : StoreState) (nextState : JSVal ⊕ (JSVal → JSVal)) :
    StoreState × List (Nat × Entry) :=
  let update := resolveUpd nextState st.value
  let newState := JSVal.obj st.nextRef (mergeFields (jsFields st.value) (jsFields update))
  let updateQueue := st.listeners.filter fun e =>
    !(e.2.equalityFn (e.2.selector newState) (e.2.selector st.value))
  let committed := { st with value := newState, nextRef := st.nextRef + 1 }
  if updateQueue.length != 0 then
    ({ committed with version := committed.version + 1 },
     if st.version != 0 then updateQueue else [])
  else (committed, [])

/-- `store.subscribe(callback, selector, equalityFn = Object.is)`: adds a
fresh entry to the listener set (JS `Set.add` keeps insertion order) and
returns the entry's identity, which the unsubscribe thunk closes over. -/
def subscribeOp (st : StoreState) (callback : Nat) (selector : JSVal → JSVal)
    (equalityFn : Option (JSVal → JSVal → Bool)) : StoreState × Nat :=
  let eqF := equalityFn.getD objectIs
  ({ st with
      listeners := st.listeners ++ [(st.nextId, ⟨callback, selector, eqF⟩)],
      nextId := st.nextId + 1 },
   st.nextId)

/-- The thunk `() => listeners.delete(entry)` returned by `subscribe`,
applied to the entry identity it closed over.  `Set.delete` removes the
entry when present and is a no-op otherwise. -/
def unsubscribeOp (st : StoreState) (i : Nat) : StoreState :=
  { st with listeners := st.listeners.filter fun p => p.1 != i }

/-- One externally visible store operation. -/
inductive StoreOp : Type where
  | setU (arg : JSVal ⊕ (JSVal → JSVal)) : StoreOp
  | sub (callback : Nat) (selector : JSVal → JSVal)
      (equalityFn : Option (JSVal → JSVal → Bool)) : StoreOp
  | unsub (i : Nat) : StoreOp

/-- Apply one operation; the second component lists the entries whose
callbacks fired. -/
def applyOp (st : StoreState) : StoreOp → StoreState × List (Nat × Entry)
  | .setU arg => setOp st arg
  | .sub cb sel eq => ((subscribeOp st cb sel eq).1, [])
  | .unsub i => (unsubscribeOp st i, [])

/-- Run a sequence of operations, collecting the fired entries of each. -/
def runOps (st : StoreState) : List StoreOp → StoreState × List (List (Nat × Entry))
  | [] => (st, [])
  | op :: ops =>
    let r := applyOp st op
    let rest := runOps r.1 ops
    (rest.1, r.2 :: rest.2)

/-- The listener ids, in insertion order. -/
def listenerIds (st : StoreState) : List Nat :=
  st.listeners.map (·.1)

/-- Store states reachable from `createStore`: the version counter started
at 1 and never decreases, listener ids are distinct and below the id
supply. -/
def WFStore (st : StoreState) : Prop :=
  1 ≤ st.version ∧ (listenerIds st).Nodup ∧ ∀ i ∈ listenerIds st, i < st.nextId

instance (st : StoreState) : Decidable (WFStore st) := by
  unfold WFStore; infer_instance

/-! ## Fallible variant: caller-supplied functions may throw -/

/-- A subscription entry whose selector / equality function may throw
(`Except.error` models a thrown exception). -/
structure EntryE (ε : Type) where
  callback : Nat
  selector : JSVal → Except ε JSVal
  equalityFn : JSVal → JSVal → Except ε Bool

/-- Store closure state for the fallible variant. -/
structure StoreStateE (ε : Type) where
  value : JSVal
  listeners : List (Nat × EntryE ε)
  version : Nat
  nextRef : Nat

/-- Resolve the `set` argument; a function updater may throw. -/
def resolveUpdE {ε : Type} (arg : JSVal ⊕ (JSVal → Except ε JSVal))
    (value : JSVal) : Except ε JSVal :=
  match arg with
  | .inl v => .ok v
  | .inr f => f value

/-- The `listeners.forEach` loop of `set`: for each entry, in insertion
order, evaluate `entry.equalityFn(entry.selector(newState), entry.selector(value))`
and queue the entry when it is false; the first exception aborts the loop. -/
def buildQueueE {ε : Type} (newState oldState : JSVal) :
    List (Nat × EntryE ε) → Except ε (List (Nat × EntryE ε))
  | [] => .ok []
  | e :: es => do
    let sNew ← e.2.selector newState
    let sOld ← e.2.selector oldState
    let eqv ← e.2.equalityFn sNew sOld
    let rest ← buildQueueE newState oldState es
    if eqv then pure rest else pure (e :: rest)

/-- `store.set` when caller-supplied functions may throw.  Returns the store
state as left by the call, the entries whose callbacks fired, and the
propagated exception (if any).  Mirrors the source order: the updater and
the listener loop both run before the commit `value = newState`, so an
exception there leaves the closure state untouched and propagates. -/
def setOpE {ε : Type} (st : StoreStateE ε) (arg : JSVal ⊕ (JSVal → Except ε JSVal)) :
    StoreStateE ε × List (Nat × EntryE ε) × Option ε :=
  match resolveUpdE arg st.value with
  | .error e => (st, [], some e)
  | .ok update =>
    let newState := JSVal.obj st.nextRef (mergeFields (jsFields st.value) (jsFields update))
    match buildQueueE newState st.value st.listeners with
    | .error e => (st, [], some e)
    | .ok updateQueue =>
      let committed := { st with value := newState, nextRef := st.nextRef + 1 }
      if updateQueue.length != 0 then
        ({ committed with version := committed.version + 1 },
         (if st.version != 0 then updateQueue else []), none)
      else (committed, [], none)

/-! ## The adapter (`useStoreSelector` in src/unnamed/part_000) -/

/-- The `lastSnapshotRef` / `lastVersionRef` pair of `useStoreSelector`. -/
structure SnapshotCache where
  lastSnapshot : JSVal
  lastVersion : Nat

/-- The initial cache: `useRef(applySelector(store, selector))` and
`useRef(store.$version)` seed the refs eagerly on first render. -/
def initCache (st : StoreState) (selector : JSVal → JSVal) : SnapshotCache :=
  ⟨selector (getOp st), st.version⟩

/-- The `getSnapshot` closure passed to `useSyncExternalStore`, acting on
the cache refs: computes `nextSnapshot = applySelector(store, selector)`
first, then compares `store.$version` with `lastVersionRef.current`; when
equal it returns the cached snapshot and leaves both refs untouched,
otherwise it overwrites both refs and returns the fresh snapshot. -/
def readStoreSelector (st : StoreState) (selector : JSVal → JSVal)
    (cache : SnapshotCache) : JSVal × SnapshotCache :=
  let nextSnapshot := selector (getOp st)
  let currentVersion := st.version
  if cache.lastVersion == currentVersion then
    (cache.lastSnapshot, cache)
  else
    (nextSnapshot, ⟨nextSnapshot, currentVersion⟩)

/-- The same read path when the selector may throw: the selector is applied
to `store.get()` before the version comparison, exactly as in the source. -/
def readStoreSelectorE {ε : Type} (st : StoreState) (selector : JSVal → Except ε JSVal)
    (cache : SnapshotCache) : Except ε (JSVal × SnapshotCache) := do
  let nextSnapshot ← selector (getOp st)
  let currentVersion := st.version
  if cache.lastVersion == currentVersion then
    pure (cache.lastSnapshot, cache)
  else
    pure (nextSnapshot, ⟨nextSnapshot, currentVersion⟩)

/-! ## Derived descriptions of `set` -/

/-- The `newState = {...value, ...update}` computed by `set`. -/
def mergedState (st : StoreState) (arg : JSVal ⊕ (JSVal → JSVal)) : JSVal :=
  JSVal.obj st.nextRef
    (mergeFields (jsFields st.value) (jsFields (resolveUpd arg st.value)))

/-- The `updateQueue` built by `set`: the listeners, in subscription order,
whose selected projection changed under their equality function. -/
def queueOf (st : StoreState) (arg : JSVal ⊕ (JSVal → JSVal)) : List (Nat × Entry) :=
  st.listeners.filter fun e =>
    !(e.2.equalityFn (e.2.selector (mergedState st arg)) (e.2.selector st.value))

/-- `setOp` in closed form. -/
theorem setOp_eq (st : StoreState) (arg : JSVal ⊕ (JSVal → JSVal)) :
    setOp st arg =
      ({ st with
          value := mergedState st arg,
          version := if (queueOf st arg).length != 0 then st.version + 1 else st.version,
          nextRef := st.nextRef + 1 },
       if (queueOf st arg).length != 0 then
         (if st.version != 0 then queueOf st arg else [])
       else []) := by
  by_cases hc : ((queueOf st arg).length != 0) = true
  · simp only [setOp, queueOf, mergedState] at hc ⊢
    rw [if_pos hc, if_pos hc, if_pos hc]
  · simp only [setOp, queueOf, mergedState] at hc ⊢
    rw [if_neg hc, if_neg hc, if_neg hc]

/-- Value lookup in a field list (the value of the first field named `k`). -/
def lookupField (fs : List (String × JSVal)) (k : String) : Option JSVal :=
  (fs.find? (·.1 == k)).map (·.2)

theorem find?_filter_of_imp {α : Type} (p g : α → Bool) (l : List α)
    (h : ∀ x, p x = true → g x = true) :
    (l.filter g).find? p = l.find? p := by
  induction l with
  | nil => rfl
  | cons x xs ih =>
    by_cases hp : p x = true
    · rw [List.filter_cons, h x hp]
      simp only [if_true, List.find?_cons, hp]
    · rw [List.filter_cons]
      split
      · simp only [List.find?_cons, eq_false_of_ne_true hp, ih]
      · rw [ih, List.find?_cons, eq_false_of_ne_true hp]

theorem find?_mergeLeft (a b : List (String × JSVal)) (k : String) :
    ((a.map fun p =>
        match b.find? (fun q => q.1 == p.1) with
        | some q => (p.1, q.2)
        | none => p).find? (·.1 == k))
      = (a.find? (·.1 == k)).map fun p =>
          match b.find? (fun q => q.1 == k) with
          | some q => (p.1, q.2)
          | none => p := by
  induction a with
  | nil => rfl
  | cons p a ih =>
    simp only [List.map_cons, List.find?_cons]
    by_cases h : p.1 == k
    · have hk : p.1 = k := eq_of_beq h
      subst hk
      cases hb : b.find? fun q => q.1 == p.1 <;>
        simp only [hb, h, if_pos, Option.map_some] <;> rfl
    · have hnb : (p.1 == k) = false := eq_false_of_ne_true h
      cases hb : b.find? fun q => q.1 == p.1 <;>
        simp only [hb, hnb, ih]

/-- Field lookup through the spread merge: a field named in the update takes
the update's value, any other field keeps the base value. -/
theorem lookupField_mergeFields (a b : List (String × JSVal)) (k : String) :
    lookupField (mergeFields a b) k = (lookupField b k).or (lookupField a k) := by
  unfold lookupField mergeFields
  rw [List.find?_append, find?_mergeLeft]
  cases ha : a.find? (·.1 == k) with
  | none =>
    have hfilter : (b.filter fun q => !(a.any fun p => p.1 == q.1)).find? (·.1 == k)
        = b.find? (·.1 == k) := by
      apply find?_filter_of_imp
      intro q hq
      have hkq : q.1 = k := eq_of_beq hq
      rw [hkq, Bool.not_eq_true', List.any_eq_false]
      exact List.find?_eq_none.mp ha
    rw [hfilter]
    cases hb : b.find? (·.1 == k) <;> simp [hb]
  | some p =>
    cases hb : b.find? (·.1 == k) <;>
      simp only [hb, Option.map_some, Option.map_none] <;> rfl

/-! ## Concrete stores used as witnesses -/

/-- The state object `{count: 0, name: "x"}` (object id 0). -/
def exInit : JSVal := .obj 0 [("count", .num 0), ("name", .str "x")]

/-- `createStore({count: 0, name: "x"})`; object ids from 1 are unused. -/
def exStore : StoreState := createStore exInit 1

/-- The update object `{count: 1}` (object id 100, allocated by the caller). -/
def exUpd : JSVal := .obj 100 [("count", .num 1)]

/-- C1: after `set`, `get()` returns the one-level shallow merge of the old
state with the (resolved) partial update: every field named in the update
has the update's value and every other field of the old state is retained;
in particular `create({count:0,name:"x"}); set({count:1}); get()` yields
`{count:1,name:"x"}`. -/
theorem set_get_shallow_merge (st : StoreState) (arg : JSVal ⊕ (JSVal → JSVal)) :
    getOp (setOp st arg).1
      = JSVal.obj st.nextRef
          (mergeFields (jsFields (getOp st)) (jsFields (resolveUpd arg (getOp st))))
    ∧ (∀ k, lookupField (jsFields (getOp (setOp st arg).1)) k
        = (lookupField (jsFields (resolveUpd arg (getOp st))) k).or
            (lookupField (jsFields (getOp st)) k))
    ∧ getOp (setOp exStore (Sum.inl exUpd)).1
        = JSVal.obj 1 [("count", .num 1), ("name", .str "x")] := by
  refine ⟨?_, ?_, ?_⟩
  · rw [setOp_eq]
    rfl
  · intro k
    rw [setOp_eq]
    exact lookupField_mergeFields _ _ k
  · rfl

/-- The fired-callback list is either the whole queue or empty. -/
theorem setOp_snd_cases (st : StoreState) (arg : JSVal ⊕ (JSVal → JSVal)) :
    (setOp st arg).2 = queueOf st arg ∨ (setOp st arg).2 = [] := by
  rw [setOp_eq]
  dsimp only
  split
  · split
    · exact Or.inl rfl
    · exact Or.inr rfl
  · exact Or.inr rfl

/-- The fired entries form a sublist of the listener list (subscription
order is preserved). -/
theorem setOp_snd_sublist (st : StoreState) (arg : JSVal ⊕ (JSVal → JSVal)) :
    ((setOp st arg).2).Sublist st.listeners := by
  rcases setOp_snd_cases st arg with h | h <;> rw [h]
  · exact List.filter_sublist _
  · exact List.nil_sublist _

/-- C2: `set` commits the merged state (a freshly allocated object)
unconditionally and leaves the listener registry alone; when the queue is
non-empty the version counter advances exactly once and every queued entry
fires, in subscription order; when the queue is empty the version and the
callbacks are untouched.  (The version counter of a live store is at least
1, so the post-increment `store.$version++` is always truthy.) -/
theorem set_commit_version_notify (st : StoreState) (arg : JSVal ⊕ (JSVal → JSVal))
    (h : 1 ≤ st.version) :
    getOp (setOp st arg).1 = mergedState st arg
    ∧ (setOp st arg).1.listeners = st.listeners
    ∧ (queueOf st arg ≠ [] →
        (setOp st arg).1.version = st.version + 1 ∧ (setOp st arg).2 = queueOf st arg)
    ∧ (queueOf st arg = [] →
        (setOp st arg).1.version = st.version ∧ (setOp st arg).2 = [])
    ∧ List.Sublist (setOp st arg).2 st.listeners := by
  have hv : (st.version != 0) = true := by
    rw [bne_iff_ne]
    omega
  refine ⟨by rw [setOp_eq]; rfl, by rw [setOp_eq], ?_, ?_, setOp_snd_sublist st arg⟩
  · intro hne
    have hc : ((queueOf st arg).length != 0) = true := by
      rw [bne_iff_ne, ne_eq, List.length_eq_zero]
      exact hne
    rw [setOp_eq]
    dsimp only
    rw [if_pos hc, if_pos hc, if_pos hv]
    exact ⟨rfl, rfl⟩
  · intro h0
    rw [setOp_eq]
    dsimp only
    rw [h0]
    exact ⟨rfl, rfl⟩

/-- Closed instance of `set_commit_version_notify` at the concrete store. -/
theorem set_commit_version_notify_witness :
    getOp (setOp exStore (Sum.inl exUpd)).1 = mergedState exStore (Sum.inl exUpd)
    ∧ (setOp exStore (Sum.inl exUpd)).1.listeners = exStore.listeners :=
  ⟨(set_commit_version_notify exStore (Sum.inl exUpd) (by decide)).1,
   (set_commit_version_notify exStore (Sum.inl exUpd) (by decide)).2.1⟩

/-- C3: during one `set`, each registered entry fires at most once, and
only when its equality function rejects the
`(selector(newState), selector(oldState))` pair; when the equality function
accepts the pair, the entry never fires — whatever happened to the state
reference; `subscribe` without an equality function installs `Object.is`. -/
theorem notify_at_most_once_equality_gate (st : StoreState)
    (arg : JSVal ⊕ (JSVal → JSVal)) (i : Nat) (e : Entry) (hWF : WFStore st) :
    (((setOp st arg).2.map (·.1)).count i ≤ 1)
    ∧ ((i, e) ∈ (setOp st arg).2 →
        e.equalityFn (e.selector (mergedState st arg)) (e.selector (getOp st)) = false)
    ∧ (e.equalityFn (e.selector (mergedState st arg)) (e.selector (getOp st)) = true →
        (i, e) ∉ (setOp st arg).2)
    ∧ (∀ cb sel, (subscribeOp st cb sel none).1.listeners
        = st.listeners ++ [(st.nextId, ⟨cb, sel, objectIs⟩)]) := by
  have hmem : (i, e) ∈ (setOp st arg).2 →
      e.equalityFn (e.selector (mergedState st arg)) (e.selector (getOp st)) = false := by
    intro hin
    rcases setOp_snd_cases st arg with hc | hc
    · rw [hc] at hin
      have := (List.mem_filter.mp hin).2
      rwa [Bool.not_eq_true'] at this
    · rw [hc] at hin
      exact absurd hin (List.not_mem_nil _)
  refine ⟨?_, hmem, ?_, fun cb sel => rfl⟩
  · have hsub : (((setOp st arg).2).map (·.1)).Sublist (listenerIds st) :=
      (setOp_snd_sublist st arg).map _
    exact le_trans (hsub.count_le i) (List.nodup_iff_count_le_one.mp hWF.2.1 i)
  · intro ht hin
    rw [hmem hin] at ht
    exact Bool.false_ne_true ht

/-- Closed instance of `notify_at_most_once_equality_gate`. -/
theorem notify_at_most_once_equality_gate_witness :
    (((setOp exStore (Sum.inl exUpd)).2.map (·.1)).count 0 ≤ 1)
    ∧ (subscribeOp exStore 0 (fun s => s) none).1.listeners
        = exStore.listeners ++ [(exStore.nextId, ⟨0, fun s => s, objectIs⟩)] :=
  ⟨(notify_at_most_once_equality_gate exStore (Sum.inl exUpd) 0
      ⟨0, fun s => s, objectIs⟩ (by decide)).1,
   (notify_at_most_once_equality_gate exStore (Sum.inl exUpd) 0
      ⟨0, fun s => s, objectIs⟩ (by decide)).2.2.2 0 (fun s => s)⟩

/-- One operation can neither fire nor resurrect an entry id that is absent
from the registry and below the id supply. -/
theorem applyOp_absent_id (st : StoreState) (op : StoreOp) (i : Nat)
    (hni : i ∉ listenerIds st) (hlt : i < st.nextId) :
    i ∉ listenerIds (applyOp st op).1 ∧ i < (applyOp st op).1.nextId
    ∧ ∀ e, (i, e) ∉ (applyOp st op).2 := by
  cases op with
  | setU arg =>
    refine ⟨?_, ?_, ?_⟩
    · have hl : (setOp st arg).1.listeners = st.listeners := by rw [setOp_eq]
      unfold listenerIds
      rw [applyOp, hl]
      exact hni
    · have hn : (setOp st arg).1.nextId = st.nextId := by rw [setOp_eq]
      rw [applyOp, hn]
      exact hlt
    · intro e hin
      have hmem : (i, e) ∈ st.listeners := (setOp_snd_sublist st arg).subset hin
      exact hni (List.mem_map.mpr ⟨(i, e), hmem, rfl⟩)
  | sub cb sel eq =>
    refine ⟨?_, ?_, fun e => List.not_mem_nil _⟩
    · unfold listenerIds applyOp subscribeOp
      rw [List.map_append]
      intro hmem
      rcases List.mem_append.mp hmem with hl | hr
      · exact hni hl
      · simp only [List.map_cons, List.map_nil, List.mem_singleton] at hr
        omega
    · unfold applyOp subscribeOp
      dsimp only
      omega
  | unsub j =>
    refine ⟨?_, hlt, fun e => List.not_mem_nil _⟩
    unfold listenerIds applyOp unsubscribeOp
    intro hmem
    rcases List.mem_map.mp hmem with ⟨p, hp, hpi⟩
    exact hni (List.mem_map.mpr ⟨p, (List.mem_filter.mp hp).1, hpi⟩)

/-- An entry id that is absent (and below the id supply) never fires again
over any sequence of further operations. -/
theorem runOps_never_fires (i : Nat) : ∀ (ops : List StoreOp) (st : StoreState),
    i ∉ listenerIds st → i < st.nextId →
    ∀ l ∈ (runOps st ops).2, ∀ e, (i, e) ∉ l := by
  intro ops
  induction ops with
  | nil =>
    intro st _ _ l hl
    simp only [runOps, List.not_mem_nil] at hl
  | cons op ops ih =>
    intro st h1 h2 l hl
    have hpres := applyOp_absent_id st op i h1 h2
    simp only [runOps] at hl
    rcases List.mem_cons.mp hl with rfl | hl'
    · exact hpres.2.2
    · exact ih (applyOp st op).1 hpres.1 hpres.2.1 l hl'

/-- C9: the thunk returned by `subscribe` removes exactly its own entry:
the entry is gone, every other entry is untouched, no later operation of
any kind ever fires that entry's callback again, and running the thunk a
second time changes nothing. -/
theorem unsubscribe_exact_final_idempotent (st : StoreState) (i : Nat)
    (hi : i < st.nextId) :
    (∀ e, (i, e) ∉ (unsubscribeOp st i).listeners)
    ∧ (∀ j e, j ≠ i → ((j, e) ∈ (unsubscribeOp st i).listeners ↔ (j, e) ∈ st.listeners))
    ∧ (∀ ops, ∀ l ∈ (runOps (unsubscribeOp st i) ops).2, ∀ e, (i, e) ∉ l)
    ∧ unsubscribeOp (unsubscribeOp st i) i = unsubscribeOp st i := by
  have habsent : ∀ e, (i, e) ∉ (unsubscribeOp st i).listeners := by
    intro e hin
    have := (List.mem_filter.mp hin).2
    rw [bne_self_eq_false] at this
    exact Bool.false_ne_true this
  refine ⟨habsent, ?_, ?_, ?_⟩
  · intro j e hji
    unfold unsubscribeOp
    dsimp only
    rw [List.mem_filter]
    constructor
    · exact fun h => h.1
    · intro h
      exact ⟨h, by rwa [bne_iff_ne]⟩
  · intro ops
    apply runOps_never_fires
    · intro hmem
      rcases List.mem_map.mp hmem with ⟨⟨p1, p2⟩, hp, hpi⟩
      have hp1 : p1 = i := hpi
      subst hp1
      exact habsent p2 hp
    · exact hi
  · unfold unsubscribeOp
    dsimp only
    rw [List.filter_filter]
    congr 1
    apply List.filter_congr
    intro p _
    exact Bool.and_self _

/-- A store with one registered subscription (selecting the `count` field). -/
def exStoreSub : StoreState :=
  (subscribeOp exStore 5 (fun s => JSVal.getProp s "count") (some objectIs)).1

/-- Closed instance of `unsubscribe_exact_final_idempotent`. -/
theorem unsubscribe_exact_final_idempotent_witness :
    unsubscribeOp (unsubscribeOp exStoreSub 0) 0 = unsubscribeOp exStoreSub 0 :=
  (unsubscribe_exact_final_idempotent exStoreSub 0 (by decide)).2.2.2

/-- The store after two identical `subscribe(cb, sel, eqF)` calls on a fresh
store. -/
def twoSubStore (v : JSVal) (nr cb : Nat) (sel : JSVal → JSVal)
    (eqF : JSVal → JSVal → Bool) : StoreState :=
  (subscribeOp (subscribeOp (createStore v nr) cb sel (some eqF)).1 cb sel (some eqF)).1

/-- C10: two `subscribe` calls with identical arguments register two
distinct entries (ids 0 and 1 on a fresh store); an update whose selected
value changes fires the shared callback once per entry, i.e. twice; each
unsubscribe thunk removes only its own entry and the surviving entry is
still notified. -/
theorem double_subscribe_two_entries (v : JSVal) (nr cb : Nat)
    (sel : JSVal → JSVal) (eqF : JSVal → JSVal → Bool)
    (arg : JSVal ⊕ (JSVal → JSVal))
    (hchange : eqF (sel (mergedState (createStore v nr) arg))
                   (sel (createStore v nr).value) = false) :
    (subscribeOp (createStore v nr) cb sel (some eqF)).2 = 0
    ∧ (subscribeOp (subscribeOp (createStore v nr) cb sel (some eqF)).1
        cb sel (some eqF)).2 = 1
    ∧ ((setOp (twoSubStore v nr cb sel eqF) arg).2.map (·.2.callback)) = [cb, cb]
    ∧ ((setOp (twoSubStore v nr cb sel eqF) arg).2.map (·.1)) = [0, 1]
    ∧ listenerIds (unsubscribeOp (twoSubStore v nr cb sel eqF) 0) = [1]
    ∧ ((setOp (unsubscribeOp (twoSubStore v nr cb sel eqF) 0) arg).2.map (·.1)) = [1]
    ∧ listenerIds (unsubscribeOp (twoSubStore v nr cb sel eqF) 1) = [0]
    ∧ ((setOp (unsubscribeOp (twoSubStore v nr cb sel eqF) 1) arg).2.map (·.1)) = [0] := by
  simp only [mergedState, createStore] at hchange
  refine ⟨rfl, rfl, ?_, ?_, ?_, ?_, ?_, ?_⟩ <;>
    simp [twoSubStore, subscribeOp, createStore, unsubscribeOp, listenerIds,
      setOp_eq, queueOf, mergedState, hchange]

/-- C4: when the store's version equals the cached `lastVersion`, a read
returns the cached snapshot and leaves the cache untouched; when it
differs, the read returns the freshly selected snapshot and overwrites both
cache fields; consequently two reads with no intervening `set` return the
identical snapshot and the second leaves the cache unchanged. -/
theorem adapter_read_cache (st : StoreState) (sel : JSVal → JSVal)
    (cache : SnapshotCache) :
    (cache.lastVersion = st.version →
      readStoreSelector st sel cache = (cache.lastSnapshot, cache))
    ∧ (cache.lastVersion ≠ st.version →
      readStoreSelector st sel cache
        = (sel (getOp st), ⟨sel (getOp st), st.version⟩))
    ∧ readStoreSelector st sel ((readStoreSelector st sel cache).2)
        = ((readStoreSelector st sel cache).1, (readStoreSelector st sel cache).2) := by
  refine ⟨?_, ?_, ?_⟩
  · intro h
    unfold readStoreSelector
    rw [if_pos (beq_iff_eq.mpr h)]
  · intro h
    unfold readStoreSelector
    rw [if_neg (by simpa using h)]
  · by_cases h : cache.lastVersion = st.version <;>
      unfold readStoreSelector <;> simp [h]

/-- Closed instance of `adapter_read_cache` (both cache branches). -/
theorem adapter_read_cache_witness :
    readStoreSelector exStore (fun s => s) ⟨exInit, 1⟩ = (exInit, ⟨exInit, 1⟩)
    ∧ readStoreSelector exStore (fun s => s) ⟨JSVal.num 9, 0⟩
        = (exInit, ⟨exInit, 1⟩) :=
  ⟨(adapter_read_cache exStore (fun s => s) ⟨exInit, 1⟩).1 rfl,
   (adapter_read_cache exStore (fun s => s) ⟨JSVal.num 9, 0⟩).2.1 (by decide)⟩

/-! ## C5: "no-op" updates -/

/-- Field-by-field equality of the own enumerable properties of two values:
the same keys in the same order, with `Object.is`-equal values. -/
def fieldsEqObjIs (a b : JSVal) : Bool :=
  ((jsFields a).map (·.1) == (jsFields b).map (·.1))
  && (((jsFields a).zip (jsFields b)).all fun p => objectIs p.1.2 p.2.2)

/-- A selector projecting one named field of the state. -/
def fieldSelector (k : String) : JSVal → JSVal :=
  fun s => JSVal.getProp s k

/-- `createStore({count: 0})` followed by `subscribe(cb, s => s)` (identity
selector, default `Object.is` equality). -/
def noopSt : StoreState :=
  (subscribeOp (createStore (JSVal.obj 0 [("count", JSVal.num 0)]) 1) 3
    (fun s => s) none).1

/-- The update object `{count: 0}` (object id 100). -/
def noopUpd : JSVal := JSVal.obj 100 [("count", JSVal.num 0)]

/-- C5 counterexample: `set({count:0})` on state `{count:0}` merges to a
state that is field-by-field equal to the old one, yet the registered
identity-selector entry (with the default `Object.is` equality) fires —
the merge allocates a fresh state object, so `Object.is` on the selected
whole-state values is false — and the version counter advances from 1
to 2. -/
theorem noop_update_fires_identity_selector :
    fieldsEqObjIs (mergedState noopSt (Sum.inl noopUpd)) (getOp noopSt) = true
    ∧ ((setOp noopSt (Sum.inl noopUpd)).2.map (·.1)) = [0]
    ∧ noopSt.version = 1
    ∧ (setOp noopSt (Sum.inl noopUpd)).1.version = 2 := by
  refine ⟨by decide, by decide, rfl, by decide⟩

theorem find?_objectIs : ∀ (xs ys : List (String × JSVal)),
    xs.map (·.1) = ys.map (·.1) →
    ((xs.zip ys).all fun p => objectIs p.1.2 p.2.2) = true →
    ∀ k, objectIs
      (match xs.find? (·.1 == k) with | some p => p.2 | none => JSVal.undefined)
      (match ys.find? (·.1 == k) with | some p => p.2 | none => JSVal.undefined)
      = true := by
  intro xs
  induction xs with
  | nil =>
    intro ys hmap _ k
    cases ys with
    | nil => rfl
    | cons y ys => exact absurd hmap (by simp)
  | cons x xs ih =>
    intro ys hmap hall k
    cases ys with
    | nil => exact absurd hmap (by simp)
    | cons y ys =>
      simp only [List.map_cons, List.cons.injEq] at hmap
      obtain ⟨hxy, hrest⟩ := hmap
      rw [List.zip_cons_cons, List.all_cons, Bool.and_eq_true] at hall
      obtain ⟨hxyv, hallrest⟩ := hall
      rw [List.find?_cons, List.find?_cons]
      by_cases hk : (x.1 == k) = true
      · have hyk : (y.1 == k) = true := by rw [← hxy]; exact hk
        rw [hk, hyk]
        exact hxyv
      · have hk' : (x.1 == k) = false := eq_false_of_ne_true hk
        have hyk : (y.1 == k) = false := by rw [← hxy]; exact hk'
        rw [hk', hyk]
        exact ih ys hrest hallrest k

/-- Field-by-field equal values agree, `Object.is`-wise, on every field
projection. -/
theorem getProp_eq_of_fieldsEq (a b : JSVal) (h : fieldsEqObjIs a b = true)
    (k : String) : objectIs (JSVal.getProp a k) (JSVal.getProp b k) = true := by
  unfold fieldsEqObjIs at h
  rw [Bool.and_eq_true] at h
  obtain ⟨hkeys, hvals⟩ := h
  exact find?_objectIs (jsFields a) (jsFields b) (eq_of_beq hkeys) hvals k

/-- C5 amended: a `set` whose merged state is field-by-field equal to the
old state fires no entry and leaves the version untouched, **provided**
every registered entry selects a named field and compares with `Object.is`;
the restriction cannot be dropped, because the merge always allocates a
fresh state object, so an entry whose selector exposes the state's identity
(e.g. the identity selector under `Object.is`) still fires
(`noop_update_fires_identity_selector`). -/
theorem noop_update_field_selectors_silent (st : StoreState)
    (arg : JSVal ⊕ (JSVal → JSVal))
    (hfields : fieldsEqObjIs (mergedState st arg) (getOp st) = true)
    (hent : ∀ p ∈ st.listeners,
      (∃ k, p.2.selector = fieldSelector k) ∧ p.2.equalityFn = objectIs) :
    (setOp st arg).2 = [] ∧ (setOp st arg).1.version = st.version := by
  have hqueue : queueOf st arg = [] := by
    rw [queueOf, List.filter_eq_nil_iff]
    intro p hp
    obtain ⟨⟨k, hsel⟩, heq⟩ := hent p hp
    rw [hsel, heq]
    simp only [fieldSelector, Bool.not_eq_true', Bool.not_eq_false]
    exact getProp_eq_of_fieldsEq _ _ hfields k
  constructor
  · rcases setOp_snd_cases st arg with hc | hc
    · rw [hc, hqueue]
    · exact hc
  · rw [setOp_eq]
    dsimp only
    rw [hqueue]
    rfl

/-- A store with one field-selecting subscription over `{count: 0}`. -/
def fieldSubSt : StoreState :=
  (subscribeOp (createStore (JSVal.obj 0 [("count", JSVal.num 0)]) 1) 3
    (fieldSelector "count") none).1

/-- Closed instance of `noop_update_field_selectors_silent`. -/
theorem noop_update_field_selectors_silent_witness :
    (setOp fieldSubSt (Sum.inl noopUpd)).2 = []
    ∧ (setOp fieldSubSt (Sum.inl noopUpd)).1.version = fieldSubSt.version :=
  noop_update_field_selectors_silent fieldSubSt (Sum.inl noopUpd) (by decide)
    (by
      intro p hp
      have hp' : p = (0, ⟨3, fieldSelector "count", objectIs⟩) := by
        simpa [fieldSubSt, subscribeOp, createStore] using hp
      subst hp'
      exact ⟨⟨"count", rfl⟩, rfl⟩)

/-- Closed instance of `double_subscribe_two_entries`. -/
theorem double_subscribe_two_entries_witness :
    ((setOp (twoSubStore exInit 1 7 (fieldSelector "count") objectIs)
        (Sum.inl exUpd)).2.map (·.2.callback)) = [7, 7]
    ∧ listenerIds (unsubscribeOp
        (twoSubStore exInit 1 7 (fieldSelector "count") objectIs) 0) = [1] :=
  ⟨(double_subscribe_two_entries exInit 1 7 (fieldSelector "count") objectIs
      (Sum.inl exUpd) (by decide)).2.2.1,
   (double_subscribe_two_entries exInit 1 7 (fieldSelector "count") objectIs
      (Sum.inl exUpd) (by decide)).2.2.2.2.1⟩

/-! ## C6: the read path and the selector -/

/-- A cache whose `lastVersion` matches the live store's version. -/
def c6cache : SnapshotCache := ⟨JSVal.num 0, 1⟩

/-- A selector that throws whenever it is applied. -/
def c6sel : JSVal → Except String JSVal := fun _ => .error "boom"

/-- C6 counterexample: the store's version equals the cached `lastVersion`,
yet the read still invokes the selector on the current state — the
selector's exception propagates out of the read instead of the cached
snapshot being returned, because `getSnapshot` computes
`applySelector(store, selector)` before comparing versions. -/
theorem read_same_version_selector_throw :
    exStore.version = c6cache.lastVersion
    ∧ readStoreSelectorE exStore c6sel c6cache = .error "boom" :=
  ⟨rfl, rfl⟩

/-- C6 amended: when the version is unchanged the read returns the cached
snapshot, but only after applying the selector to the current state: the
selector is invoked on every read, and a selector exception on the current
state propagates even when the version matches the cache. -/
theorem read_version_gate_after_selector {ε : Type} (st : StoreState)
    (sel : JSVal → Except ε JSVal) (cache : SnapshotCache) :
    (∀ e, sel (getOp st) = .error e → readStoreSelectorE st sel cache = .error e)
    ∧ (∀ v, sel (getOp st) = .ok v → cache.lastVersion = st.version →
        readStoreSelectorE st sel cache = .ok (cache.lastSnapshot, cache))
    ∧ (∀ v, sel (getOp st) = .ok v → cache.lastVersion ≠ st.version →
        readStoreSelectorE st sel cache = .ok (v, ⟨v, st.version⟩)) := by
  refine ⟨?_, ?_, ?_⟩
  · intro e h
    unfold readStoreSelectorE
    rw [h]
    rfl
  · intro v h hv
    unfold readStoreSelectorE
    rw [h]
    show (if (cache.lastVersion == st.version) = true then _ else _) = _
    rw [if_pos (beq_iff_eq.mpr hv)]
    rfl
  · intro v h hv
    unfold readStoreSelectorE
    rw [h]
    show (if (cache.lastVersion == st.version) = true then _ else _) = _
    rw [if_neg (by simpa using hv)]
    rfl

/-- Closed instance of `read_version_gate_after_selector`. -/
theorem read_version_gate_after_selector_witness :
    readStoreSelectorE exStore c6sel c6cache = .error "boom"
    ∧ readStoreSelectorE exStore (fun s => (.ok s : Except String JSVal)) c6cache
        = .ok (c6cache.lastSnapshot, c6cache) :=
  ⟨(read_version_gate_after_selector exStore c6sel c6cache).1 "boom" rfl,
   (read_version_gate_after_selector exStore
      (fun s => (.ok s : Except String JSVal)) c6cache).2.1 exInit rfl rfl⟩

/-! ## C7: cross-kind comparisons in `shallow` -/

/-- C7 counterexample: a Date and a Map are non-identical composite values
of different container kinds, yet `shallow` reports them equal: neither is
an array, neither is caught by the same-kind Date/RegExp/Map/Set branches,
and the plain-object fallback compares their (empty) own enumerable key
lists. -/
theorem shallow_date_map_true :
    isComposite (JSVal.date 0 0) = true
    ∧ isComposite (JSVal.jmap 1 []) = true
    ∧ (kindTag (JSVal.date 0 0) == kindTag (JSVal.jmap 1 [])) = false
    ∧ objectIs (JSVal.date 0 0) (JSVal.jmap 1 []) = false
    ∧ shallow (JSVal.date 0 0) (JSVal.jmap 1 []) = true := by
  exact ⟨rfl, rfl, by decide, rfl, by decide⟩

/-- C7 amended: for two composite values of different kinds, `shallow` is
false whenever one of them is an array; for two non-array composites of
different kinds it degenerates to the plain-object fallback on own
enumerable keys, so it is `true` exactly when both sides have no own
enumerable key (e.g. any Date versus any Map), and false otherwise (e.g.
an array versus a plain object with mirroring numeric keys, or a Date
versus a non-empty plain object). -/
theorem shallow_cross_kind (a b : JSVal) (hca : isComposite a = true)
    (hcb : isComposite b = true) (hk : kindTag a ≠ kindTag b) :
    ((isArr a || isArr b) = true → shallow a b = false)
    ∧ (isArr a = false → isArr b = false →
        shallow a b = ((jsOwnKeys a).isEmpty && (jsOwnKeys b).isEmpty)) := by
  constructor
  · intro harr
    cases a <;> cases b <;>
      first
        | exact absurd hca Bool.false_ne_true
        | exact absurd hcb Bool.false_ne_true
        | exact absurd rfl hk
        | exact absurd harr Bool.false_ne_true
        | rfl
  · intro ha hb
    cases a <;> cases b <;>
      first
        | exact absurd hca Bool.false_ne_true
        | exact absurd hcb Bool.false_ne_true
        | exact absurd rfl hk
        | exact absurd ha (fun h => Bool.false_ne_true h.symm)
        | exact absurd hb (fun h => Bool.false_ne_true h.symm)
        | rfl
        | (rename_i x1 x2 x3 x4; cases x2 <;> rfl)
        | (rename_i x1 x2 x3 x4; cases x4 <;> rfl)

/-- Closed instance of `shallow_cross_kind`: an array versus the
numeric-key plain object mirroring it is false, and the Date/Map fallthrough. -/
theorem shallow_cross_kind_witness :
    shallow (JSVal.arr 0 [JSVal.num 1, JSVal.num 2])
      (JSVal.obj 1 [("0", JSVal.num 1), ("1", JSVal.num 2)]) = false
    ∧ shallow (JSVal.date 0 0) (JSVal.jmap 1 [])
        = ((jsOwnKeys (JSVal.date 0 0)).isEmpty
            && (jsOwnKeys (JSVal.jmap 1 [])).isEmpty) :=
  ⟨(shallow_cross_kind (JSVal.arr 0 [JSVal.num 1, JSVal.num 2])
      (JSVal.obj 1 [("0", JSVal.num 1), ("1", JSVal.num 2)])
      rfl rfl (by decide)).1 rfl,
   (shallow_cross_kind (JSVal.date 0 0) (JSVal.jmap 1 [])
      rfl rfl (by decide)).2 rfl rfl⟩

/-! ## C8: exceptions during `set` -/

/-- C8: an exception raised by the caller-supplied updater or by any
entry's selector / equality function during `set` propagates unmodified to
the caller (the very same exception value), and because such a throw
happens before the `value = newState` assignment, the committed state — and
the version counter — are left untouched, with no callback fired. -/
theorem set_selector_throw_propagates {ε : Type} (st : StoreStateE ε)
    (arg : JSVal ⊕ (JSVal → Except ε JSVal)) (e : ε) :
    (resolveUpdE arg st.value = .error e → setOpE st arg = (st, [], some e))
    ∧ (∀ update, resolveUpdE arg st.value = .ok update →
        buildQueueE
          (JSVal.obj st.nextRef (mergeFields (jsFields st.value) (jsFields update)))
          st.value st.listeners = .error e →
        setOpE st arg = (st, [], some e))
    ∧ ((setOpE st arg).2.2 = some e →
        (setOpE st arg).1.value = st.value
        ∧ (setOpE st arg).1.version = st.version
        ∧ (setOpE st arg).2.1 = []) := by
  refine ⟨?_, ?_, ?_⟩
  · intro h
    unfold setOpE
    rw [h]
  · intro u hu hq
    unfold setOpE
    rw [hu]
    dsimp only
    rw [hq]
  · intro h
    cases hr : resolveUpdE arg st.value with
    | error e' =>
      have hs : setOpE st arg = (st, [], some e') := by
        unfold setOpE
        rw [hr]
      rw [hs]
      exact ⟨rfl, rfl, rfl⟩
    | ok u =>
      cases hq : buildQueueE
          (JSVal.obj st.nextRef (mergeFields (jsFields st.value) (jsFields u)))
          st.value st.listeners with
      | error e' =>
        have hs : setOpE st arg = (st, [], some e') := by
          unfold setOpE
          rw [hr]
          dsimp only
          rw [hq]
        rw [hs]
        exact ⟨rfl, rfl, rfl⟩
      | ok q =>
        have hs : (setOpE st arg).2.2 = none := by
          unfold setOpE
          rw [hr]
          dsimp only
          rw [hq]
          dsimp only
          split <;> rfl
        rw [hs] at h
        exact absurd h (by simp)

/-- A store whose single entry's selector throws. -/
def exStoreE : StoreStateE String :=
  ⟨exInit,
   [(0, ⟨4, fun _ => .error "sel boom", fun a b => .ok (objectIs a b)⟩)],
   1, 1⟩

/-- Closed instance of `set_selector_throw_propagates`: the entry's
selector throws, the exception comes back verbatim, and the store state is
untouched. -/
theorem set_selector_throw_propagates_witness :
    setOpE exStoreE (Sum.inl exUpd) = (exStoreE, [], some "sel boom")
    ∧ (setOpE exStoreE (Sum.inl exUpd)).1.value = exStoreE.value
    ∧ (setOpE exStoreE (Sum.inl exUpd)).1.version = exStoreE.version
    ∧ (setOpE exStoreE (Sum.inl exUpd)).2.1 = [] := by
  refine ⟨(set_selector_throw_propagates exStoreE (Sum.inl exUpd) "sel boom").2.1
      exUpd rfl rfl, ?_⟩
  have h := (set_selector_throw_propagates exStoreE (Sum.inl exUpd) "sel boom").2.2 rfl
  exact h

/-! ## Reachable stores are well-formed -/

theorem createStore_WF (v : JSVal) (nr : Nat) : WFStore (createStore v nr) := by
  refine ⟨le_refl 1, List.nodup_nil, ?_⟩
  intro i hi
  exact absurd hi (List.not_mem_nil i)

theorem applyOp_WF (st : StoreState) (op : StoreOp) (h : WFStore st) :
    WFStore (applyOp st op).1 := by
  obtain ⟨hv, hnd, hlt⟩ := h
  cases op with
  | setU arg =>
    have hl : (setOp st arg).1.listeners = st.listeners := by rw [setOp_eq]
    have hn : (setOp st arg).1.nextId = st.nextId := by rw [setOp_eq]
    have hver : st.version ≤ (setOp st arg).1.version := by
      rw [setOp_eq]
      dsimp only
      split <;> omega
    refine ⟨le_trans hv hver, ?_, ?_⟩
    · unfold listenerIds
      rw [applyOp, hl]
      exact hnd
    · intro i hi
      unfold listenerIds at hi
      rw [applyOp, hl] at hi
      rw [applyOp, hn]
      exact hlt i hi
  | sub cb sel eq =>
    refine ⟨hv, ?_, ?_⟩
    · unfold listenerIds applyOp subscribeOp
      dsimp only
      rw [List.map_append, List.nodup_append]
      refine ⟨hnd, List.nodup_singleton _, ?_⟩
      intro i hi hi'
      simp only [List.map_cons, List.map_nil, List.mem_singleton] at hi'
      subst hi'
      exact absurd (hlt _ hi) (lt_irrefl _)
    · intro i hi
      unfold listenerIds applyOp subscribeOp at hi
      dsimp only at hi
      rw [List.map_append, List.mem_append] at hi
      unfold applyOp subscribeOp
      dsimp only
      rcases hi with hi | hi
      · exact lt_trans (hlt i hi) (Nat.lt_succ_self _)
      · simp only [List.map_cons, List.map_nil, List.mem_singleton] at hi
        subst hi
        exact Nat.lt_succ_self _
  | unsub j =>
    refine ⟨hv, ?_, ?_⟩
    · unfold listenerIds applyOp unsubscribeOp
      dsimp only
      exact ((List.filter_sublist _).map _).nodup hnd
    · intro i hi
      unfold listenerIds applyOp unsubscribeOp at hi
      dsimp only at hi
      rcases List.mem_map.mp hi with ⟨p, hp, hpi⟩
      exact hlt i (List.mem_map.mpr ⟨p, (List.mem_filter.mp hp).1, hpi⟩)

theorem runOps_WF (ops : List StoreOp) : ∀ (st : StoreState), WFStore st →
    WFStore (runOps st ops).1 := by
  induction ops with
  | nil => intro st h; exact h
  | cons op ops ih =>
    intro st h
    exact ih (applyOp st op).1 (applyOp_WF st op h)
